import Mathlib

/-
  Verification of the Bcut ASR client (ccp-p/ai-video).

  Shallow embedding of the ASR client logic in src/asr.go (the strict,
  context-aware variant; near-verbatim duplicates live in src/ccode.go,
  src/main.go and src/unnamed/part_002).  Go float64 values are modelled
  as rationals: every arithmetic step the claims touch (ms/1000 + 0.105,
  the progress percentage 60 + int(float64(i)/500*39) for i < 500) was
  checked to be exact in binary64, so the rational model agrees with the
  compiled program at every point a theorem below evaluates.
-/

/-- Constants from src/asr.go lines 17-32.  MaxRetries bounds the poll
loop; TimeOffset is the fixed empirical clock-skew correction in seconds;
the retry delays are in seconds. -/
def MaxRetries : Nat := 500

/-- Time offset correction, seconds (src/asr.go line 28). -/
def TimeOffset : ℚ := 0.105

/-- Base poll retry delay in seconds (src/asr.go line 30). -/
def RetryBaseDelay : Nat := 1

/-- Long poll retry delay in seconds (src/asr.go line 31). -/
def RetryLongDelay : Nat := 3

/-- JSON values as Go's encoding/json decodes them into interface values:
numbers become float64 (modelled as rationals), objects become maps
(modelled as association lists; the inputs used here have distinct keys). -/
inductive JsonVal where
  | null
  | bool (b : Bool)
  | num (q : ℚ)
  | str (s : String)
  | arr (elems : List JsonVal)
  | obj (fields : List (String × JsonVal))

/-- Map lookup on a JSON object, none on any other value (in Go a
lookup only happens after a successful map type assertion). -/
def JsonVal.lookupField : JsonVal → String → Option JsonVal
  | .obj fields, k => fields.lookup k
  | _, _ => none

/-- Go type assertion .(string). -/
def JsonVal.asStr : JsonVal → Option String
  | .str s => some s
  | _ => none

/-- Go type assertion .(float64). -/
def JsonVal.asNum : JsonVal → Option ℚ
  | .num q => some q
  | _ => none

/-- Go type assertion .([]interface). -/
def JsonVal.asArr : JsonVal → Option (List JsonVal)
  | .arr elems => some elems
  | _ => none

/-- Go type assertion .(map[string]interface). -/
def JsonVal.asObj : JsonVal → Option (List (String × JsonVal))
  | .obj fields => some fields
  | _ => none

/-- models.DataSegment (src/models/models.go): text plus start and end
times in seconds (float64, modelled as rationals). -/
structure DataSegment where
  text : String
  startTime : ℚ
  endTime : ℚ
deriving DecidableEq

/-- makeSegments (src/asr.go lines 521-552): reads the utterances array
from the raw result payload; a missing or mistyped array yields the empty
list (with a logged warning).  Each element that is not a JSON object is
skipped; for object elements the transcript, start time and end time are
read with Go's silently-defaulting assertions (empty string and 0), and
times convert as raw/1000 + TimeOffset. -/
def makeSegments (result : JsonVal) : List DataSegment :=
  match (result.lookupField "utterances").bind JsonVal.asArr with
  | none => []
  | some utterances =>
    utterances.foldl (fun segments u =>
      match u.asObj with
      | none => segments
      | some fields =>
        let text := (((JsonVal.obj fields).lookupField "transcript").bind JsonVal.asStr).getD ""
        let startTimeRaw := (((JsonVal.obj fields).lookupField "start_time").bind JsonVal.asNum).getD 0
        let endTimeRaw := (((JsonVal.obj fields).lookupField "end_time").bind JsonVal.asNum).getD 0
        segments ++ [⟨text, startTimeRaw / 1000 + TimeOffset, endTimeRaw / 1000 + TimeOffset⟩])
      []

/-- The per-utterance conversion performed by the body of the
makeSegments loop: none exactly when the element is skipped. -/
def segOfUtterance (u : JsonVal) : Option DataSegment :=
  u.asObj.map (fun fields =>
    ⟨(((JsonVal.obj fields).lookupField "transcript").bind JsonVal.asStr).getD "",
     ((((JsonVal.obj fields).lookupField "start_time").bind JsonVal.asNum).getD 0) / 1000 + TimeOffset,
     ((((JsonVal.obj fields).lookupField "end_time").bind JsonVal.asNum).getD 0) / 1000 + TimeOffset⟩)

/-- Follows the spec's words (section 4.4): a well-formed utterance entry
carries a transcript string and numeric millisecond start and end times.
Used to state claim C7 as written; the code's actual skip criterion is
only whether the entry is a JSON object. -/
def utteranceWellFormedSpec (u : JsonVal) : Bool :=
  ((u.lookupField "transcript").bind JsonVal.asStr).isSome &&
  ((u.lookupField "start_time").bind JsonVal.asNum).isSome &&
  ((u.lookupField "end_time").bind JsonVal.asNum).isSome

/-- Trace events recorded by the model: poll GET requests (tagged with the
loop iteration), sleeps (seconds), poll-phase progress callbacks (tagged
with the iteration and carrying the percentage), orchestrator progress
callbacks, and the network activity of the upload and task-creation
phases. -/
inductive Ev where
  | pollReq (iter : Nat)
  | sleep (secs : Nat)
  | pollProgress (iter : Nat) (pct : Nat)
  | progress (pct : Nat)
  | netUpload
  | netCreateTask
deriving DecidableEq

/-- One poll iteration's view of the HTTP layer: netErr covers a failed
client.Do or a failed io.ReadAll (identical handling in the source); body
carries the response bytes after json.Unmarshal into a map, none when
unmarshalling fails. -/
inductive HttpOutcome where
  | netErr
  | body (j : Option JsonVal)

/-- Fatal outcomes of queryResult (src/asr.go lines 421-518): context
cancellation, an empty or missing result field on completion, an
unparsable result string, remote task failure carrying the numeric state,
and retry exhaustion. -/
inductive PollError where
  | canceled
  | emptyResult
  | resultParseFailed
  | taskFailed (state : ℚ)
  | timeout
deriving DecidableEq

/-- queryResult's poll loop (src/asr.go lines 421-514), fuel-indexed so
that the recursion is structural: iteration i with fuel f corresponds to
the Go loop counter i where i + f = MaxRetries.  The environment env
gives each iteration's HTTP outcome, cancel gives what the ctx.Done()
check observes at the top of each iteration, parse models
json.Unmarshal of the embedded result string, and cb says whether the
progress callback is non-nil.  Returns the trace of events and the
final value or error. -/
def pollLoop (env : Nat → HttpOutcome) (cancel : Nat → Bool)
    (parse : String → Option JsonVal) (cb : Bool) :
    Nat → Nat → List Ev × Except PollError JsonVal
  | _, 0 => ([], .error .timeout)
  | i, fuel + 1 =>
    -- select ctx.Done (lines 423-428)
    if cancel i then ([], .error .canceled)
    else
      match env i with
      | .netErr =>
        -- client.Do or io.ReadAll failed (lines 439-453): warn, sleep base delay, retry
        let r := pollLoop env cancel parse cb (i + 1) fuel
        (Ev.pollReq i :: Ev.sleep RetryBaseDelay :: r.1, r.2)
      | .body none =>
        -- json.Unmarshal failed (lines 455-460): warn, sleep base delay, retry
        let r := pollLoop env cancel parse cb (i + 1) fuel
        (Ev.pollReq i :: Ev.sleep RetryBaseDelay :: r.1, r.2)
      | .body (some j) =>
        match (j.lookupField "data").bind JsonVal.asObj with
        | none =>
          -- data field missing or mistyped (lines 462-467)
          let r := pollLoop env cancel parse cb (i + 1) fuel
          (Ev.pollReq i :: Ev.sleep RetryBaseDelay :: r.1, r.2)
        | some data =>
          match ((JsonVal.obj data).lookupField "state").bind JsonVal.asNum with
          | none =>
            -- state field missing or mistyped (lines 469-474)
            let r := pollLoop env cancel parse cb (i + 1) fuel
            (Ev.pollReq i :: Ev.sleep RetryBaseDelay :: r.1, r.2)
          | some state =>
            if state = 4 then
              -- task done (lines 478-490)
              match ((JsonVal.obj data).lookupField "result").bind JsonVal.asStr with
              | none => ([Ev.pollReq i], .error .emptyResult)
              | some resultStr =>
                if resultStr = "" then ([Ev.pollReq i], .error .emptyResult)
                else
                  match parse resultStr with
                  | none => ([Ev.pollReq i], .error .resultParseFailed)
                  | some resultData => ([Ev.pollReq i], .ok resultData)
            else if state = 3 then
              -- task failed (lines 491-494)
              ([Ev.pollReq i], .error (.taskFailed state))
            else
              -- pending: progress callback every 5th iteration (lines 497-503)
              let progressEvs :=
                if cb && i % 5 == 0 then
                  let p := 60 + i * 39 / MaxRetries
                  [Ev.pollProgress i (if p > 99 then 99 else p)]
                else []
              -- escalating sleep (lines 505-513)
              let d1 := RetryBaseDelay
              let d2 := if i > 20 then RetryBaseDelay * 2 else d1
              let d3 := if i > 50 then RetryLongDelay else d2
              let r := pollLoop env cancel parse cb (i + 1) fuel
              (Ev.pollReq i :: progressEvs ++ Ev.sleep d3 :: r.1, r.2)

/-- queryResult: runs the poll loop from iteration 0 with MaxRetries
iterations of fuel (src/asr.go line 421). -/
def queryResult (env : Nat → HttpOutcome) (cancel : Nat → Bool)
    (parse : String → Option JsonVal) (cb : Bool) :
    List Ev × Except PollError JsonVal :=
  pollLoop env cancel parse cb 0 MaxRetries

/-- The data object of one poll response, when present. -/
def getData (r : HttpOutcome) : Option (List (String × JsonVal)) :=
  match r with
  | .body (some j) => (j.lookupField "data").bind JsonVal.asObj
  | _ => none

/-- The numeric state of one poll response, when present. -/
def getState (r : HttpOutcome) : Option ℚ :=
  (getData r).bind (fun data => ((JsonVal.obj data).lookupField "state").bind JsonVal.asNum)

/-- The result string of one poll response, when present. -/
def getResultStr (r : HttpOutcome) : Option String :=
  (getData r).bind (fun data => ((JsonVal.obj data).lookupField "result").bind JsonVal.asStr)

/-- A response that the loop treats as a legitimate pending state: it has
a numeric state that is neither 4 (done) nor 3 (failed). -/
def isPending (r : HttpOutcome) : Bool :=
  match getState r with
  | some s => decide (s ≠ 4 ∧ s ≠ 3)
  | none => false

/-- A response on which the loop keeps polling: either a transient error
(no readable state) or a pending state. -/
def isNonTerminal (r : HttpOutcome) : Bool :=
  match getState r with
  | some s => decide (s ≠ 4 ∧ s ≠ 3)
  | none => true

/-- The percentage reported by the poll-phase progress callback at
iteration i: 60 + int(float64(i)/float64(MaxRetries)*39), capped at 99.
For i < MaxRetries the float computation truncates to i*39/500 in
integer division (checked exhaustively against binary64). -/
def pollPct (i : Nat) : Nat :=
  let p := 60 + i * 39 / MaxRetries
  if p > 99 then 99 else p

/-- The escalating sleep applied after a pending iteration (src/asr.go
lines 505-513). -/
def sleepSchedule (i : Nat) : Nat :=
  if i > 50 then RetryLongDelay
  else if i > 20 then RetryBaseDelay * 2
  else RetryBaseDelay

/-- Follows the claim's words (C1): sleep 1 second on iterations 0-20,
2 seconds on iterations 21-50, 3 seconds afterwards. -/
def claimedSleepSchedule (i : Nat) : Nat :=
  if i ≤ 20 then 1 else if i ≤ 50 then 2 else 3

/-- The events of one non-terminal, non-canceled poll iteration. -/
def iterEvents (env : Nat → HttpOutcome) (cb : Bool) (i : Nat) : List Ev :=
  match getState (env i) with
  | none => [Ev.pollReq i, Ev.sleep RetryBaseDelay]
  | some _ =>
    Ev.pollReq i ::
      (if cb && i % 5 == 0 then [Ev.pollProgress i (pollPct i)] else []) ++
      [Ev.sleep (sleepSchedule i)]

/-- The events of a run of non-terminal, non-canceled iterations
starting at iteration i and spanning n iterations. -/
def runEvents (env : Nat → HttpOutcome) (cb : Bool) : Nat → Nat → List Ev
  | _, 0 => []
  | i, n + 1 => iterEvents env cb i ++ runEvents env cb (i + 1) n

/-- The iteration indices of the poll requests in a trace, in order. -/
def pollReqs (evs : List Ev) : List Nat :=
  evs.filterMap (fun e => match e with | .pollReq i => some i | _ => none)

/-- The sleep durations of a trace, in order (seconds). -/
def pollSleeps (evs : List Ev) : List Nat :=
  evs.filterMap (fun e => match e with | .sleep s => some s | _ => none)

/-- The percentages delivered to the progress callback, in order, from
both the orchestrator-level and the poll-phase callback invocations. -/
def progressValues (evs : List Ev) : List Nat :=
  evs.filterMap (fun e =>
    match e with
    | .progress p => some p
    | .pollProgress _ p => some p
    | _ => none)

/-- The number of network operations in a trace: poll GETs, the upload
phase's HTTP calls, and the task-creation POST. -/
def networkOps (evs : List Ev) : Nat :=
  evs.countP (fun e =>
    match e with
    | .pollReq _ => true
    | .netUpload => true
    | .netCreateTask => true
    | _ => false)

/-- Go truncating conversion int(f) from float64, on the rational model:
truncation toward zero. -/
def goIntTrunc (q : ℚ) : Int :=
  if q < 0 then Rat.ceil q else Rat.floor q

/-- Fields extracted from the upload-negotiation response
(src/asr.go lines 35-46, the relevant BcutASR struct fields). -/
structure UploadFields where
  inBossKey : String
  resourceID : String
  uploadID : String
  perSize : Int
  uploadURLs : List String
deriving DecidableEq

/-- Element-wise extraction of upload_urls with the strict per-index
error of src/asr.go lines 227-234. -/
def extractURLs : Nat → List JsonVal → Except String (List String)
  | _, [] => .ok []
  | i, u :: rest =>
    match u.asStr with
    | none => .error ("upload_urls[" ++ toString i ++ "] wrong type")
    | some s => (extractURLs (i + 1) rest).map (fun tail => s :: tail)

/-- requestUpload's response handling in src/asr.go lines 192-236
(strict variant): every field is type-checked and a missing or mistyped
field is a hard error naming the field. -/
def requestUploadExtract (body : JsonVal) : Except String UploadFields :=
  match (body.lookupField "data").bind JsonVal.asObj with
  | none => .error "data"
  | some data =>
    match ((JsonVal.obj data).lookupField "in_boss_key").bind JsonVal.asStr with
    | none => .error "in_boss_key"
    | some inBossKey =>
      match ((JsonVal.obj data).lookupField "resource_id").bind JsonVal.asStr with
      | none => .error "resource_id"
      | some resourceID =>
        match ((JsonVal.obj data).lookupField "upload_id").bind JsonVal.asStr with
        | none => .error "upload_id"
        | some uploadID =>
          match ((JsonVal.obj data).lookupField "per_size").bind JsonVal.asNum with
          | none => .error "per_size"
          | some perSize =>
            match ((JsonVal.obj data).lookupField "upload_urls").bind JsonVal.asArr with
            | none => .error "upload_urls"
            | some urls =>
              (extractURLs 0 urls).map
                (fun uploadURLs => ⟨inBossKey, resourceID, uploadID, goIntTrunc perSize, uploadURLs⟩)

/-- requestUpload's response handling in src/main.go lines 444-477 and
src/unnamed/part_002 lines 414-447 (lenient variant): only the data
object and the upload_urls array are required; in_boss_key, resource_id,
upload_id and per_size are silently left at their zero values when
missing or mistyped, and a mistyped upload_urls element is silently left
as the empty string. -/
def requestUploadExtractLenient (body : JsonVal) : Except String UploadFields :=
  match (body.lookupField "data").bind JsonVal.asObj with
  | none => .error "data"
  | some data =>
    let inBossKey := (((JsonVal.obj data).lookupField "in_boss_key").bind JsonVal.asStr).getD ""
    let resourceID := (((JsonVal.obj data).lookupField "resource_id").bind JsonVal.asStr).getD ""
    let uploadID := (((JsonVal.obj data).lookupField "upload_id").bind JsonVal.asStr).getD ""
    let perSize :=
      match ((JsonVal.obj data).lookupField "per_size").bind JsonVal.asNum with
      | some q => goIntTrunc q
      | none => 0
    match ((JsonVal.obj data).lookupField "upload_urls").bind JsonVal.asArr with
    | none => .error "upload_urls"
    | some urls =>
      .ok ⟨inBossKey, resourceID, uploadID, perSize,
           urls.map (fun u => u.asStr.getD "")⟩

/-- Go slice expression buf[s:e] on a byte buffer: defined when
0 ≤ s ≤ e ≤ len(buf), a runtime panic (none) otherwise.  The poll
code always clamps e to len(buf), so the cap-based upper bound of Go
slicing never matters here. -/
def goSlice (buf : List Nat) (s e : Int) : Option (List Nat) :=
  if 0 ≤ s ∧ s ≤ e ∧ e ≤ (buf.length : Int) then
    some ((buf.drop s.toNat).take (e - s).toNat)
  else none

/-- The bytes of buf in the half-open interval [s, e), used to state
which bytes part i covers. -/
def bytesInRange (buf : List Nat) (s e : Int) : List Nat :=
  (buf.drop s.toNat).take (e - s).toNat

/-- Outcome of uploadParts (src/asr.go lines 245-293): a Go runtime
panic from an out-of-range slice, a fatal per-part upload failure
(network error or missing etag, lines 266-286), or success with the
etags and the uploaded byte ranges in part order. -/
inductive UploadOutcome where
  | panicked
  | uploadFailed (part : Nat)
  | ok (etags : List String) (parts : List (List Nat))
deriving DecidableEq

/-- The body of uploadParts' loop, iterating part index i with rem
parts remaining (i + rem = clips).  startRange and endRange follow
src/asr.go lines 250-254; the slice is taken before the PUT; etagOf
models the etag obtained for part i from the response header or body,
none when the request fails or neither source yields an etag. -/
def uploadPartsAux (fileBinary : List Nat) (perSize : Int)
    (etagOf : Nat → Option String) : Nat → Nat → UploadOutcome
  | _, 0 => .ok [] []
  | i, rem + 1 =>
    let startRange : Int := i * perSize
    let endRange0 : Int := (i + 1) * perSize
    let endRange : Int :=
      if endRange0 > (fileBinary.length : Int) then (fileBinary.length : Int) else endRange0
    match goSlice fileBinary startRange endRange with
    | none => .panicked
    | some part =>
      match etagOf i with
      | none => .uploadFailed i
      | some etag =>
        match uploadPartsAux fileBinary perSize etagOf (i + 1) rem with
        | .panicked => .panicked
        | .uploadFailed j => .uploadFailed j
        | .ok etags parts => .ok (etag :: etags) (part :: parts)

/-- uploadParts (src/asr.go lines 245-293): the number of parts is
b.clips = len(b.uploadURLs) (set at line 236), not a function of the
file size. -/
def uploadPartsGo (fileBinary : List Nat) (perSize : Int)
    (uploadURLs : List String) (etagOf : Nat → Option String) : UploadOutcome :=
  uploadPartsAux fileBinary perSize etagOf 0 uploadURLs.length

/-- buildEtags' loop body (src/asr.go lines 351-360): the comma is
prepended for every index after the first. -/
def buildEtagsAux (acc : String) (first : Bool) : List String → String
  | [] => acc
  | e :: rest => buildEtagsAux ((if first then acc else acc ++ ",") ++ e) false rest

/-- buildEtags (src/asr.go lines 351-360): concatenates the etags with
comma separators, in list order. -/
def buildEtags (etags : List String) : String :=
  buildEtagsAux "" true etags

/-- Follows the claim's words (C5): the comma-joined string of the
etags in part-index order. -/
def commaJoin : List String → String
  | [] => ""
  | [e] => e
  | e :: rest => e ++ "," ++ commaJoin rest

/-- Errors of GetResult (src/asr.go lines 85-111): each phase failure is
wrapped with a phase-identifying message. -/
inductive OrchError where
  | uploadFailed
  | taskCreationFailed
  | queryFailed (e : PollError)
deriving DecidableEq

/-- The environment of one GetResult run: whether the upload phase
(requestUpload, uploadParts, commitUpload) succeeds, whether createTask
succeeds, and the poll loop's environment.  The internals of the upload
phase are modelled separately (requestUploadExtract, uploadPartsGo,
buildEtags). -/
structure OrchEnv where
  uploadOk : Bool
  createTaskOk : Bool
  pollEnv : Nat → HttpOutcome
  cancel : Nat → Bool
  parse : String → Option JsonVal

/-- GetResult (src/asr.go lines 62-135).  The cache is the entry stored
under this instance's content-hash key (BcutASR_md5(path ++ bytes)):
some segments when a cache file exists and loads, none otherwise.
Returns the result, the cache entry after the call, and the trace.
Mirrors the source order: cache check (lines 67-78, reporting 100 on a
hit and issuing no network calls), callback 20 and upload (81-89),
callback 50 and createTask (92-99), callback 60 and queryResult
(103-111), makeSegments (116), callback 100 (119-121), and the cache
write, which happens only when caching is on and at least one segment
was produced (line 124). -/
def GetResult (env : OrchEnv) (cache : Option (List DataSegment))
    (useCache cb : Bool) :
    Except OrchError (List DataSegment) × Option (List DataSegment) × List Ev :=
  match useCache, cache with
  | true, some segments =>
    (.ok segments, some segments, if cb then [Ev.progress 100] else [])
  | _, _ =>
    let ev20 : List Ev := if cb then [Ev.progress 20] else []
    if env.uploadOk = false then
      (.error .uploadFailed, cache, ev20 ++ [Ev.netUpload])
    else
      let ev50 : List Ev := if cb then [Ev.progress 50] else []
      if env.createTaskOk = false then
        (.error .taskCreationFailed, cache, ev20 ++ [Ev.netUpload] ++ ev50 ++ [Ev.netCreateTask])
      else
        let ev60 : List Ev := if cb then [Ev.progress 60] else []
        let poll := queryResult env.pollEnv env.cancel env.parse cb
        match poll.2 with
        | .error e =>
          (.error (.queryFailed e), cache,
           ev20 ++ [Ev.netUpload] ++ ev50 ++ [Ev.netCreateTask] ++ ev60 ++ poll.1)
        | .ok payload =>
          let segments := makeSegments payload
          let ev100 : List Ev := if cb then [Ev.progress 100] else []
          let cacheAfter := if useCache && segments.length > 0 then some segments else cache
          (.ok segments, cacheAfter,
           ev20 ++ [Ev.netUpload] ++ ev50 ++ [Ev.netCreateTask] ++ ev60 ++ poll.1 ++ ev100)

/-- A poll response with a legitimate pending state (state 0). -/
def pendingResponse : HttpOutcome :=
  .body (some (.obj [("data", .obj [("state", .num 0)])]))

/-- A poll response reporting completion (state 4) with the embedded
JSON-encoded result string "R". -/
def doneResponse : HttpOutcome :=
  .body (some (.obj [("data", .obj [("state", .num 4), ("result", .str "R")])]))

/-- A parse environment under which the result string "R" decodes to the
given payload and everything else fails to decode. -/
def parseOnlyR (payload : JsonVal) : String → Option JsonVal :=
  fun s => if s = "R" then some payload else none

/-- A raw result payload with a single utterance. -/
def singleUtterancePayload : JsonVal :=
  .obj [("utterances", .arr
    [.obj [("transcript", .str "hi"), ("start_time", .num 0), ("end_time", .num 500)]])]

/-- An orchestrator environment whose poll completes immediately with a
payload that decodes but contains no utterances array. -/
def envDoneEmptyPayload : OrchEnv :=
  ⟨true, true, fun _ => doneResponse, fun _ => false, parseOnlyR (JsonVal.obj [])⟩

/-- An orchestrator environment whose poll completes immediately with a
payload containing one utterance. -/
def envDoneOneUtterance : OrchEnv :=
  ⟨true, true, fun _ => doneResponse, fun _ => false, parseOnlyR singleUtterancePayload⟩

/-- C4: the claim says requestUpload hard-errors, naming the field, on
any missing or mistyped negotiation field.  The strict variant
(src/asr.go lines 192-236) does; the deployed duplicates in src/main.go
lines 444-477 and src/unnamed/part_002 lines 414-447 silently accept a
response missing in_boss_key and leave the field at its zero value,
contradicting the spec's stated target behavior (its section 9 calls
the lenient variant an unintentional regression).  Both variants are
evaluated here at the failing input. -/
theorem requestUpload_lenient_divergence :
    requestUploadExtract (JsonVal.obj [("data", JsonVal.obj
        [("resource_id", .str "r"), ("upload_id", .str "u"),
         ("per_size", .num 1048576), ("upload_urls", JsonVal.arr [.str "h1"])])])
      = .error "in_boss_key" ∧
    requestUploadExtractLenient (JsonVal.obj [("data", JsonVal.obj
        [("resource_id", .str "r"), ("upload_id", .str "u"),
         ("per_size", .num 1048576), ("upload_urls", JsonVal.arr [.str "h1"])])])
      = .ok ⟨"", "r", "u", 1048576, ["h1"]⟩ := by
  constructor
  · simp [requestUploadExtract, JsonVal.lookupField, JsonVal.asObj, JsonVal.asStr,
      JsonVal.asNum, JsonVal.asArr, List.lookup]
  · simp [requestUploadExtractLenient, JsonVal.lookupField, JsonVal.asObj, JsonVal.asStr,
      JsonVal.asNum, JsonVal.asArr, List.lookup, goIntTrunc]
    decide

/-- C6: makeSegments maps an utterance with millisecond start and end
times to a segment whose time fields are milliseconds/1000 + TimeOffset
with TimeOffset = 0.105 seconds; in particular start 1000 and end 3500
map to exactly 1.105 and 3.605 seconds.  (Binary64 arithmetic is exact
at these points, so the rational model agrees with the Go float64
computation here.) -/
theorem segment_time_offset (t : String) (s e : ℚ) :
    makeSegments (JsonVal.obj [("utterances", JsonVal.arr
        [JsonVal.obj [("transcript", .str t), ("start_time", .num s), ("end_time", .num e)]])])
      = [⟨t, s / 1000 + TimeOffset, e / 1000 + TimeOffset⟩] ∧
    TimeOffset = 0.105 ∧
    makeSegments (JsonVal.obj [("utterances", JsonVal.arr
        [JsonVal.obj [("transcript", .str t), ("start_time", .num 1000), ("end_time", .num 3500)]])])
      = [⟨t, 1.105, 3.605⟩] := by
  refine ⟨?_, rfl, ?_⟩
  · simp [makeSegments, JsonVal.lookupField, JsonVal.asArr, JsonVal.asObj,
      JsonVal.asNum, JsonVal.asStr, List.lookup]
  · simp [makeSegments, JsonVal.lookupField, JsonVal.asArr, JsonVal.asObj,
      JsonVal.asNum, JsonVal.asStr, List.lookup, TimeOffset]
    norm_num

/-- C6 witness: the mapping evaluated at the claim's concrete input. -/
theorem segment_time_offset_witness :
    makeSegments (JsonVal.obj [("utterances", JsonVal.arr
        [JsonVal.obj [("transcript", .str "hi"), ("start_time", .num 1000), ("end_time", .num 3500)]])])
      = [⟨"hi", 1.105, 3.605⟩] :=
  (segment_time_offset "hi" 1000 3500).2.2

/-- Any successful run of the part-upload loop produces exactly one etag
and one byte range per remaining part. -/
theorem uploadPartsAux_ok_length (buf : List Nat) (P : Int) (etagOf : Nat → Option String) :
    ∀ rem i etags parts, uploadPartsAux buf P etagOf i rem = .ok etags parts →
      etags.length = rem ∧ parts.length = rem := by
  intro rem
  induction rem with
  | zero =>
    intro i etags parts h
    simp only [uploadPartsAux, UploadOutcome.ok.injEq] at h
    obtain ⟨h1, h2⟩ := h
    subst h1; subst h2
    exact ⟨rfl, rfl⟩
  | succ n ih =>
    intro i etags parts h
    simp only [uploadPartsAux] at h
    split at h
    · cases h
    · split at h
      · cases h
      · split at h
        · cases h
        · cases h
        · rename_i heq
          simp only [UploadOutcome.ok.injEq] at h
          obtain ⟨h1, h2⟩ := h
          subst h1; subst h2
          have := ih _ _ _ heq
          simp [this.1, this.2]

/-- When the part size is nonnegative and every remaining part's start
offset fits inside the buffer, the part-upload loop cannot panic. -/
theorem uploadPartsAux_no_panic (buf : List Nat) (P : Int) (etagOf : Nat → Option String)
    (hP : 0 ≤ P) :
    ∀ rem i, (∀ j : Nat, j < i + rem → (j : Int) * P ≤ (buf.length : Int)) →
      uploadPartsAux buf P etagOf i rem ≠ .panicked := by
  intro rem
  induction rem with
  | zero => intro i h hc; simp only [uploadPartsAux] at hc; cases hc
  | succ n ih =>
    intro i h hc
    have hiP : (i : Int) * P ≤ (buf.length : Int) := h i (by omega)
    have hstart : (0 : Int) ≤ (i : Int) * P := mul_nonneg (Int.natCast_nonneg i) hP
    have hmono : (i : Int) * P ≤ ((i + 1 : Nat) : Int) * P :=
      mul_le_mul_of_nonneg_right (by exact_mod_cast Nat.le_succ i) hP
    push_cast at hmono
    simp only [uploadPartsAux] at hc
    rw [goSlice, if_pos] at hc
    · split at hc
      · rename_i heq
        cases heq
      · split at hc
        · cases hc
        · split at hc
          · rename_i heq3
            exact ih (i + 1) (fun j hj => h j (by omega)) heq3
          · cases hc
          · cases hc
    · refine ⟨hstart, ?_, ?_⟩
      · split
        · exact hiP
        · exact hmono
      · split
        · exact le_refl _
        · rename_i hgt
          exact not_lt.mp hgt

/-- When the part size is nonnegative, every needed start offset is in
bounds, and every part yields an etag, the part-upload loop succeeds and
returns, in part order, the etags and the byte ranges
[j*perSize, min((j+1)*perSize, len)). -/
theorem uploadPartsAux_all_ok (buf : List Nat) (P : Int) (etagF : Nat → String) (hP : 0 ≤ P) :
    ∀ rem i, (∀ j : Nat, j < i + rem → (j : Int) * P ≤ (buf.length : Int)) →
      uploadPartsAux buf P (fun j => some (etagF j)) i rem =
        .ok ((List.range' i rem).map etagF)
            ((List.range' i rem).map (fun (j : Nat) =>
              bytesInRange buf ((j : Int) * P) (min (((j : Int) + 1) * P) (buf.length : Int)))) := by
  intro rem
  induction rem with
  | zero => intro i h; simp [uploadPartsAux, List.range']
  | succ n ih =>
    intro i h
    have hiP : (i : Int) * P ≤ (buf.length : Int) := h i (by omega)
    have hstart : (0 : Int) ≤ (i : Int) * P := mul_nonneg (Int.natCast_nonneg i) hP
    have hmono : (i : Int) * P ≤ ((i + 1 : Nat) : Int) * P :=
      mul_le_mul_of_nonneg_right (by exact_mod_cast Nat.le_succ i) hP
    push_cast at hmono
    have hite : (if ((i : Int) + 1) * P > (buf.length : Int) then (buf.length : Int)
        else ((i : Int) + 1) * P) = min (((i : Int) + 1) * P) (buf.length : Int) := by
      rcases lt_or_le (buf.length : Int) (((i : Int) + 1) * P) with hlt | hle
      · rw [if_pos hlt, min_eq_right hlt.le]
      · rw [if_neg (not_lt.mpr hle), min_eq_left hle]
    have hslice : goSlice buf ((i : Int) * P)
        (if ((i : Int) + 1) * P > (buf.length : Int) then (buf.length : Int)
         else ((i : Int) + 1) * P)
        = some (bytesInRange buf ((i : Int) * P)
            (min (((i : Int) + 1) * P) (buf.length : Int))) := by
      rw [hite, goSlice, if_pos]
      · rfl
      · exact ⟨hstart, le_min hmono hiP, min_le_right _ _⟩
    simp only [uploadPartsAux, hslice, ih (i + 1) (fun j hj => h j (by omega)),
      List.range'_succ, List.map_cons]

/-- buildEtags' accumulator loop equals the plain comma join with the
accumulator prepended. -/
theorem buildEtagsAux_eq (l : List String) : ∀ acc : String,
    buildEtagsAux acc false l = commaJoin (acc :: l) := by
  induction l with
  | nil => intro acc; rfl
  | cons e rest ih =>
    intro acc
    rw [buildEtagsAux, ih]
    cases rest with
    | nil => simp [commaJoin, String.append_assoc]
    | cons f rest2 => simp [commaJoin, String.append_assoc]

/-- buildEtags joins the etags with commas in list order. -/
theorem buildEtags_eq_commaJoin (l : List String) : buildEtags l = commaJoin l := by
  cases l with
  | nil => rfl
  | cons e rest =>
    rw [buildEtags, buildEtagsAux, buildEtagsAux_eq]
    simp

/-- C5 counterexample: with a 1-byte buffer, part size 1 and three
server-supplied upload URLs, the claimed behavior (three parts, each
covering its byte range) is impossible: the loop panics at part 2,
whose slice lower bound 2 exceeds the buffer length 1. -/
theorem uploadParts_slice_panic_counterexample :
    uploadPartsGo [0] 1 ["u1", "u2", "u3"] (fun _ => some "e") = .panicked ∧
    (0 : Int) < 1 := by decide

/-- C5 (amended): when additionally every part's start offset fits in
the buffer ((number of urls - 1) * perSize ≤ len), the part-upload loop
succeeds, part j covers exactly the bytes [j*perSize,
min((j+1)*perSize, len)), the etag of part j is stored at list index j,
and buildEtags joins the etags comma-separated in part-index order. -/
theorem uploadParts_part_ranges (buf : List Nat) (P : Int) (urls : List String)
    (etagF : Nat → String) (hP : 0 < P)
    (hbound : ((urls.length : Int) - 1) * P ≤ (buf.length : Int)) :
    uploadPartsGo buf P urls (fun j => some (etagF j)) =
      .ok ((List.range urls.length).map etagF)
          ((List.range urls.length).map (fun (j : Nat) =>
            bytesInRange buf ((j : Int) * P) (min (((j : Int) + 1) * P) (buf.length : Int)))) ∧
    buildEtags ((List.range urls.length).map etagF) =
      commaJoin ((List.range urls.length).map etagF) := by
  have hb : ∀ j : Nat, j < 0 + urls.length → (j : Int) * P ≤ (buf.length : Int) := by
    intro j hj
    have h1 : (j : Int) ≤ (urls.length : Int) - 1 := by omega
    calc (j : Int) * P ≤ ((urls.length : Int) - 1) * P := mul_le_mul_of_nonneg_right h1 hP.le
      _ ≤ (buf.length : Int) := hbound
  refine ⟨?_, buildEtags_eq_commaJoin _⟩
  rw [uploadPartsGo, List.range_eq_range']
  exact uploadPartsAux_all_ok buf P etagF hP.le urls.length 0 hb

/-- C5 witness: a 3-byte buffer split into two parts of size 2. -/
theorem uploadParts_part_ranges_witness :
    (0 : Int) < 2 ∧
    (((["a", "b"] : List String).length : Int) - 1) * 2 ≤ (([10, 20, 30] : List Nat).length : Int) ∧
    uploadPartsGo [10, 20, 30] 2 ["a", "b"] (fun _ => some "e") = .ok ["e", "e"] [[10, 20], [30]] := by
  refine ⟨by decide, by decide, ?_⟩
  have h := (uploadParts_part_ranges [10, 20, 30] 2 ["a", "b"] (fun _ => "e") (by decide) (by decide)).1
  rw [h]
  decide

/-- C10 counterexample: a negotiation response carrying a negative
per_size (-1, accepted by requestUpload since any float64 passes the
type check) and one upload URL satisfies the claim's in-bounds condition
(1-1)*(-1) ≤ 1, yet the very first slice has negative upper bound
5[0:-1] and the operation panics. -/
theorem uploadParts_bounds_counterexample :
    ((((["w1"] : List String).length : Int) - 1) * (-1) ≤ (([5] : List Nat).length : Int)) ∧
    uploadPartsGo [5] (-1) ["w1"] (fun _ => some "e") = .panicked := by decide

/-- C10 (amended): the number of parts is the length of the
server-supplied upload_urls list (every successful run returns exactly
that many etags and byte ranges); for nonnegative perSize the condition
(len(upload_urls) - 1) * perSize ≤ len(FileBinary) keeps every slice
access in bounds (no panic); and a response with more upload URLs (3)
than ceil(len/perSize) = 1 drives a slice lower bound past the buffer
length and panics. -/
theorem uploadParts_bounds :
    (∀ (buf : List Nat) (P : Int) (urls : List String) (etagOf : Nat → Option String)
        (etags : List String) (parts : List (List Nat)),
        uploadPartsGo buf P urls etagOf = .ok etags parts →
        etags.length = urls.length ∧ parts.length = urls.length) ∧
    (∀ (buf : List Nat) (P : Int) (urls : List String) (etagOf : Nat → Option String),
        0 ≤ P → ((urls.length : Int) - 1) * P ≤ (buf.length : Int) →
        uploadPartsGo buf P urls etagOf ≠ .panicked) ∧
    uploadPartsGo [0] 1 ["v1", "v2", "v3"] (fun _ => some "e") = .panicked ∧
    (["v1", "v2", "v3"] : List String).length > 1 := by
  refine ⟨?_, ?_, by decide, by decide⟩
  · intro buf P urls etagOf etags parts h
    exact uploadPartsAux_ok_length buf P etagOf urls.length 0 etags parts h
  · intro buf P urls etagOf hP hbound
    apply uploadPartsAux_no_panic buf P etagOf hP urls.length 0
    intro j hj
    have h1 : (j : Int) ≤ (urls.length : Int) - 1 := by omega
    calc (j : Int) * P ≤ ((urls.length : Int) - 1) * P := mul_le_mul_of_nonneg_right h1 hP
      _ ≤ (buf.length : Int) := hbound

/-- C10 witness: a 1-byte buffer with two upload URLs of part size 1
satisfies the in-bounds condition, and the loop indeed does not panic
(here it stops with a missing-etag failure on part 0). -/
theorem uploadParts_bounds_witness :
    (0 : Int) ≤ 1 ∧
    (((["x", "y"] : List String).length : Int) - 1) * 1 ≤ (([5] : List Nat).length : Int) ∧
    uploadPartsGo [5] 1 ["x", "y"] (fun _ => none) ≠ .panicked :=
  ⟨by decide, by decide, uploadParts_bounds.2.1 [5] 1 ["x", "y"] (fun _ => none) (by decide) (by decide)⟩

/-- The makeSegments loop appends, in order, one segment per element
that is a JSON object and skips everything else. -/
theorem makeSegments_loop (us : List JsonVal) : ∀ acc : List DataSegment,
    us.foldl (fun segments u =>
      match u.asObj with
      | none => segments
      | some fields =>
        segments ++ [⟨(((JsonVal.obj fields).lookupField "transcript").bind JsonVal.asStr).getD "",
          ((((JsonVal.obj fields).lookupField "start_time").bind JsonVal.asNum).getD 0) / 1000 + TimeOffset,
          ((((JsonVal.obj fields).lookupField "end_time").bind JsonVal.asNum).getD 0) / 1000 + TimeOffset⟩]) acc
      = acc ++ us.filterMap segOfUtterance := by
  induction us with
  | nil => intro acc; simp
  | cons u rest ih =>
    intro acc
    rw [List.foldl_cons, ih]
    cases hu : u.asObj with
    | none => simp [List.filterMap_cons, segOfUtterance, hu]
    | some fields => simp [List.filterMap_cons, segOfUtterance, hu]

/-- makeSegments equals filterMap of the per-utterance conversion over
the utterances array (empty when the array is missing or mistyped). -/
theorem makeSegments_eq (j : JsonVal) :
    makeSegments j = (((j.lookupField "utterances").bind JsonVal.asArr).getD []).filterMap segOfUtterance := by
  rw [makeSegments]
  cases h : (j.lookupField "utterances").bind JsonVal.asArr with
  | none => simp
  | some us =>
    simp only [Option.getD_some]
    exact (makeSegments_loop us []).trans (List.nil_append _)

/-- One output segment per object element. -/
theorem length_filterMap_segOf (us : List JsonVal) :
    (us.filterMap segOfUtterance).length = us.countP (fun u => u.asObj.isSome) := by
  induction us with
  | nil => rfl
  | cons u rest ih =>
    cases hu : u.asObj with
    | none => simp [List.filterMap_cons, List.countP_cons, segOfUtterance, hu, ih]
    | some fields => simp [List.filterMap_cons, List.countP_cons, segOfUtterance, hu, ih]

/-- C7 counterexample: an utterances array mixing one spec-well-formed
entry and one malformed entry (an object whose transcript is a number
and whose times are missing) yields 2 segments, not 1: the malformed
object entry is not skipped but mapped with zero-valued defaults. -/
theorem makeSegments_wellformed_counterexample :
    makeSegments (JsonVal.obj [("utterances", JsonVal.arr
      [JsonVal.obj [("transcript", .str "hi"), ("start_time", .num 0), ("end_time", .num 500)],
       JsonVal.obj [("transcript", .num 42)]])])
      = [⟨"hi", 0.105, 0.605⟩, ⟨"", 0.105, 0.105⟩] ∧
    ([JsonVal.obj [("transcript", .str "hi"), ("start_time", .num 0), ("end_time", .num 500)],
      JsonVal.obj [("transcript", .num 42)]] : List JsonVal).countP utteranceWellFormedSpec = 1 ∧
    (2 : Nat) ≠ 1 := by
  refine ⟨?_, by decide, by decide⟩
  simp [makeSegments, JsonVal.lookupField, JsonVal.asArr, JsonVal.asObj,
    JsonVal.asNum, JsonVal.asStr, List.lookup, TimeOffset]
  norm_num

/-- C7 (amended): a missing or mistyped utterances field yields the
empty list (a logged warning, not an error); when the array is present,
the entries that are skipped are exactly the ones that are not JSON
objects: every object entry yields a segment (missing or mistyped
transcript and times silently default to the empty string and 0), so
the output count equals the number of object entries. -/
theorem makeSegments_skip_nonobject (j : JsonVal) :
    ((j.lookupField "utterances").bind JsonVal.asArr = none → makeSegments j = []) ∧
    (∀ us, (j.lookupField "utterances").bind JsonVal.asArr = some us →
      makeSegments j = us.filterMap segOfUtterance ∧
      (makeSegments j).length = us.countP (fun u => u.asObj.isSome)) := by
  constructor
  · intro h
    rw [makeSegments, h]
  · intro us h
    have he := makeSegments_eq j
    rw [h, Option.getD_some] at he
    exact ⟨he, by rw [he]; exact length_filterMap_segOf us⟩

/-- C7 witness: a two-element array with one string entry (skipped) and
one object entry. -/
theorem makeSegments_skip_nonobject_witness :
    (((JsonVal.obj [("utterances", JsonVal.arr [JsonVal.str "x",
        JsonVal.obj [("transcript", .str "ok"), ("start_time", .num 1000), ("end_time", .num 2000)]])]).lookupField
          "utterances").bind JsonVal.asArr
      = some [JsonVal.str "x",
        JsonVal.obj [("transcript", .str "ok"), ("start_time", .num 1000), ("end_time", .num 2000)]]) ∧
    (makeSegments (JsonVal.obj [("utterances", JsonVal.arr [JsonVal.str "x",
        JsonVal.obj [("transcript", .str "ok"), ("start_time", .num 1000), ("end_time", .num 2000)]])])).length = 1 := by
  refine ⟨rfl, ?_⟩
  have h := (makeSegments_skip_nonobject (JsonVal.obj [("utterances", JsonVal.arr [JsonVal.str "x",
      JsonVal.obj [("transcript", .str "ok"), ("start_time", .num 1000), ("end_time", .num 2000)]])])).2
    [JsonVal.str "x",
     JsonVal.obj [("transcript", .str "ok"), ("start_time", .num 1000), ("end_time", .num 2000)]] rfl
  rw [h.2]
  decide

/-- One non-terminal, non-canceled poll iteration prepends its events
and continues at the next iteration with one less unit of fuel. -/
theorem pollLoop_step_nonterminal (env : Nat → HttpOutcome) (cancel : Nat → Bool)
    (parse : String → Option JsonVal) (cb : Bool) (i fuel : Nat)
    (hc : cancel i = false) (hnt : isNonTerminal (env i) = true) :
    pollLoop env cancel parse cb i (fuel + 1) =
      (iterEvents env cb i ++ (pollLoop env cancel parse cb (i + 1) fuel).1,
       (pollLoop env cancel parse cb (i + 1) fuel).2) := by
  cases henv : env i with
  | netErr =>
    simp [pollLoop, iterEvents, getState, getData, henv, hc]
  | body oj =>
    cases oj with
    | none => simp [pollLoop, iterEvents, getState, getData, henv, hc]
    | some j =>
      cases hd : (j.lookupField "data").bind JsonVal.asObj with
      | none => simp [pollLoop, iterEvents, getState, getData, henv, hc, hd]
      | some data =>
        cases hst : ((JsonVal.obj data).lookupField "state").bind JsonVal.asNum with
        | none => simp [pollLoop, iterEvents, getState, getData, henv, hc, hd, hst]
        | some st =>
          have hgs : getState (env i) = some st := by
            simp [getState, getData, henv, hd, hst]
          have hnt2 : st ≠ 4 ∧ st ≠ 3 := by
            rw [isNonTerminal, hgs] at hnt
            exact of_decide_eq_true hnt
          simp [pollLoop, iterEvents, getState, getData, henv, hc, hd, hst,
            hnt2.1, hnt2.2, pollPct, sleepSchedule, hgs]

/-- A poll run whose responses never reach a terminal state and whose
context is never canceled runs through all its fuel and times out,
producing exactly the per-iteration events. -/
theorem pollLoop_all_nonterminal (env : Nat → HttpOutcome) (cancel : Nat → Bool)
    (parse : String → Option JsonVal) (cb : Bool)
    (hnt : ∀ j, isNonTerminal (env j) = true) (hc : ∀ j, cancel j = false) :
    ∀ fuel i, pollLoop env cancel parse cb i fuel = (runEvents env cb i fuel, .error .timeout) := by
  intro fuel
  induction fuel with
  | zero => intro i; rfl
  | succ n ih =>
    intro i
    rw [pollLoop_step_nonterminal env cancel parse cb i n (hc i) (hnt i), ih (i + 1)]
    rfl

/-- Every non-terminal iteration issues exactly one poll request. -/
theorem pollReqs_iterEvents (env : Nat → HttpOutcome) (cb : Bool) (i : Nat) :
    pollReqs (iterEvents env cb i) = [i] := by
  cases h : getState (env i) with
  | none => simp [iterEvents, h, pollReqs]
  | some st =>
    cases hcb : cb && i % 5 == 0 <;> simp [iterEvents, h, hcb, pollReqs]

/-- A run of non-terminal iterations issues exactly the requests for
its iteration range, in order. -/
theorem pollReqs_runEvents (env : Nat → HttpOutcome) (cb : Bool) :
    ∀ n i, pollReqs (runEvents env cb i n) = List.range' i n := by
  intro n
  induction n with
  | zero => intro i; rfl
  | succ m ih =>
    intro i
    rw [runEvents, pollReqs, List.filterMap_append, ← pollReqs, ← pollReqs,
      pollReqs_iterEvents, ih (i + 1), List.range'_succ]
    rfl

/-- A non-terminal iteration sleeps the escalating schedule when the
response is a pending state and the base delay when it is a transient
error. -/
theorem pollSleeps_iterEvents (env : Nat → HttpOutcome) (cb : Bool) (i : Nat)
    (hnt : isNonTerminal (env i) = true) :
    pollSleeps (iterEvents env cb i) =
      [if isPending (env i) then sleepSchedule i else RetryBaseDelay] := by
  cases h : getState (env i) with
  | none => simp [iterEvents, h, pollSleeps, isPending]
  | some st =>
    have hp : isPending (env i) = true := by
      rw [isNonTerminal, h] at hnt
      rw [isPending, h]
      exact hnt
    cases hcb : cb && i % 5 == 0 <;> simp [iterEvents, h, hcb, pollSleeps, hp]

/-- The sleeps of a run of non-terminal iterations, one per iteration. -/
theorem pollSleeps_runEvents (env : Nat → HttpOutcome) (cb : Bool) :
    ∀ n i, (∀ j, i ≤ j → j < i + n → isNonTerminal (env j) = true) →
      pollSleeps (runEvents env cb i n) =
        (List.range' i n).map (fun j => if isPending (env j) then sleepSchedule j else RetryBaseDelay) := by
  intro n
  induction n with
  | zero => intro i h; rfl
  | succ m ih =>
    intro i h
    rw [runEvents, pollSleeps, List.filterMap_append, ← pollSleeps, ← pollSleeps,
      pollSleeps_iterEvents env cb i (h i (le_refl i) (by omega)),
      ih (i + 1) (fun j h1 h2 => h j (by omega) (by omega)), List.range'_succ]
    rfl

/-- The code's escalating pending-state sleep schedule coincides with
the claimed one: 1s on iterations 0-20, 2s on 21-50, 3s after. -/
theorem sleepSchedule_eq_claimed (i : Nat) : sleepSchedule i = claimedSleepSchedule i := by
  rw [sleepSchedule, claimedSleepSchedule, RetryBaseDelay, RetryLongDelay]
  split_ifs <;> omega

set_option maxRecDepth 10000 in
/-- C1 counterexample: a run in which every response is a transient
network error is never terminal, runs the full MaxRetries = 500
iterations and times out, but sleeps the 1-second base delay on every
iteration, not the claimed escalating schedule (they differ from
iteration 21 on). -/
theorem poll_sleep_schedule_counterexample :
    pollSleeps (queryResult (fun _ => HttpOutcome.netErr) (fun _ => false) (fun _ => none) true).1
      ≠ (List.range MaxRetries).map claimedSleepSchedule ∧
    (queryResult (fun _ => HttpOutcome.netErr) (fun _ => false) (fun _ => none) true).2
      = .error .timeout ∧
    pollReqs (queryResult (fun _ => HttpOutcome.netErr) (fun _ => false) (fun _ => none) true).1
      = List.range MaxRetries := by
  refine ⟨by decide, rfl, by decide⟩

/-- C1 (amended): a poll run in which every iteration observes a
non-terminal response (pending state or transient error) and is never
canceled issues exactly MaxRetries = 500 requests (transient-error
iterations consume the same counter as pending ones) and then fails
with the poll-timeout error; each pending-state iteration i sleeps the
escalating schedule (1s for i ≤ 20, 2s for 21 ≤ i ≤ 50, 3s for i > 50)
but each transient-error iteration sleeps the 1-second base delay
regardless of i. -/
theorem poll_retry_budget (env : Nat → HttpOutcome) (cancel : Nat → Bool)
    (parse : String → Option JsonVal) (cb : Bool)
    (hnt : ∀ j, isNonTerminal (env j) = true) (hc : ∀ j, cancel j = false) :
    (queryResult env cancel parse cb).2 = .error .timeout ∧
    pollReqs (queryResult env cancel parse cb).1 = List.range MaxRetries ∧
    pollSleeps (queryResult env cancel parse cb).1 =
      (List.range MaxRetries).map
        (fun i => if isPending (env i) then claimedSleepSchedule i else RetryBaseDelay) := by
  rw [queryResult, pollLoop_all_nonterminal env cancel parse cb hnt hc MaxRetries 0]
  refine ⟨rfl, ?_, ?_⟩
  · rw [pollReqs_runEvents, List.range_eq_range']
  · rw [pollSleeps_runEvents env cb MaxRetries 0 (fun j h1 h2 => hnt j), List.range_eq_range']
    exact List.map_congr_left (fun j hj => by rw [sleepSchedule_eq_claimed])

set_option maxRecDepth 10000 in
/-- C1 witness: a run in which every response is the pending state 0 and
the context is never canceled. -/
theorem poll_retry_budget_witness :
    (∀ j : Nat, isNonTerminal ((fun _ => pendingResponse) j) = true) ∧
    (queryResult (fun _ => pendingResponse) (fun _ => false) (fun _ => none) false).2
      = .error .timeout ∧
    pollReqs (queryResult (fun _ => pendingResponse) (fun _ => false) (fun _ => none) false).1
      = List.range MaxRetries :=
  ⟨fun _ => rfl,
   (poll_retry_budget (fun _ => pendingResponse) (fun _ => false) (fun _ => none) false
      (fun _ => rfl) (fun _ => rfl)).1,
   (poll_retry_budget (fun _ => pendingResponse) (fun _ => false) (fun _ => none) false
      (fun _ => rfl) (fun _ => rfl)).2.1⟩

/-- Skipping a block of k non-terminal, non-canceled iterations: the
loop's trace is the block's events followed by the continuation at
iteration i + k with k less fuel. -/
theorem pollLoop_skip (env : Nat → HttpOutcome) (cancel : Nat → Bool)
    (parse : String → Option JsonVal) (cb : Bool) :
    ∀ (k i fuel : Nat), k ≤ fuel →
      (∀ j, j < k → isNonTerminal (env (i + j)) = true ∧ cancel (i + j) = false) →
      pollLoop env cancel parse cb i fuel =
        (runEvents env cb i k ++ (pollLoop env cancel parse cb (i + k) (fuel - k)).1,
         (pollLoop env cancel parse cb (i + k) (fuel - k)).2) := by
  intro k
  induction k with
  | zero => intro i fuel hk h; simp [runEvents]
  | succ n ih =>
    intro i fuel hk h
    cases fuel with
    | zero => exact absurd hk (by omega)
    | succ m =>
      have h0 := h 0 (by omega)
      rw [Nat.add_zero] at h0
      rw [pollLoop_step_nonterminal env cancel parse cb i m h0.2 h0.1]
      have hrec := ih (i + 1) m (by omega) (fun j hj => by
        have := h (j + 1) (by omega)
        have e : i + (j + 1) = i + 1 + j := by omega
        rwa [e] at this)
      rw [hrec]
      have e1 : i + 1 + n = i + (n + 1) := by omega
      have e2 : m - n = Nat.succ m - (n + 1) := by omega
      rw [e1, e2, runEvents, List.append_assoc]

/-- Every poll request recorded in a run of non-terminal iterations
belongs to the run's iteration range. -/
theorem mem_pollReq_runEvents (env : Nat → HttpOutcome) (cb : Bool) :
    ∀ (n i0 i : Nat), Ev.pollReq i ∈ runEvents env cb i0 n → i0 ≤ i ∧ i < i0 + n := by
  intro n
  induction n with
  | zero => intro i0 i h; simp [runEvents] at h
  | succ m ih =>
    intro i0 i h
    rw [runEvents] at h
    rcases List.mem_append.mp h with h1 | h2
    · have : i = i0 := by
        cases hgs : getState (env i0) with
        | none => simp [iterEvents, hgs] at h1; exact h1
        | some st =>
          cases hcb : cb && i0 % 5 == 0 <;> simp [iterEvents, hgs, hcb] at h1 <;> exact h1
      omega
    · have := ih (i0 + 1) i h2
      omega

/-- The poll requests of concatenated traces. -/
theorem pollReqs_append (l1 l2 : List Ev) : pollReqs (l1 ++ l2) = pollReqs l1 ++ pollReqs l2 :=
  List.filterMap_append l1 l2 _

/-- The sleeps of concatenated traces. -/
theorem pollSleeps_append (l1 l2 : List Ev) : pollSleeps (l1 ++ l2) = pollSleeps l1 ++ pollSleeps l2 :=
  List.filterMap_append l1 l2 _

/-- The progress percentages of concatenated traces. -/
theorem progressValues_append (l1 l2 : List Ev) :
    progressValues (l1 ++ l2) = progressValues l1 ++ progressValues l2 :=
  List.filterMap_append l1 l2 _

/-- C3: the cancellation signal is checked at the top of every iteration
before the request is issued; once the signal is observed the poll
returns the Canceled error with no partial result, and every request
issued belongs to an iteration that still observed an unset signal and
lies strictly before any iteration with the signal set (cancel k = true
here), so at most one request can follow the moment the signal is
raised.  No monotonicity of the signal is needed: every request
precedes the first set index. -/
theorem poll_cancellation (env : Nat → HttpOutcome) (cancel : Nat → Bool)
    (parse : String → Option JsonVal) (cb : Bool) (k : Nat)
    (hk : cancel k = true) (hklt : k < MaxRetries)
    (hnt : ∀ j, j < k → isNonTerminal (env j) = true) :
    (queryResult env cancel parse cb).2 = .error .canceled ∧
    (∀ i, Ev.pollReq i ∈ (queryResult env cancel parse cb).1 → cancel i = false ∧ i < k) := by
  have hex : ∃ n, cancel n = true := ⟨k, hk⟩
  have hkc : cancel (Nat.find hex) = true := Nat.find_spec hex
  have hkck : Nat.find hex ≤ k := Nat.find_min' hex hk
  have hfalse : ∀ j, j < Nat.find hex → cancel j = false := by
    intro j hj
    have := Nat.find_min hex hj
    simpa using this
  have hskip := pollLoop_skip env cancel parse cb (Nat.find hex) 0 MaxRetries (by omega)
    (fun j hj => by
      rw [Nat.zero_add]
      exact ⟨hnt j (by omega), hfalse j hj⟩)
  rw [Nat.zero_add] at hskip
  obtain ⟨m, hm⟩ : ∃ m, MaxRetries - Nat.find hex = m + 1 := ⟨MaxRetries - Nat.find hex - 1, by omega⟩
  rw [hm] at hskip
  have hstep : pollLoop env cancel parse cb (Nat.find hex) (m + 1) = ([], .error .canceled) := by
    simp [pollLoop, hkc]
  rw [queryResult, hskip, hstep]
  refine ⟨rfl, ?_⟩
  intro i hi
  simp only [List.append_nil] at hi
  have hb := mem_pollReq_runEvents env cb (Nat.find hex) 0 i hi
  exact ⟨hfalse i (by omega), by omega⟩

/-- C3 witness: the signal is raised from iteration 2 on; the poll
returns the Canceled error. -/
theorem poll_cancellation_witness :
    (fun i : Nat => decide (2 ≤ i)) 2 = true ∧
    (queryResult (fun _ => pendingResponse) (fun i => decide (2 ≤ i)) (fun _ => none) true).2
      = .error .canceled :=
  ⟨by decide,
   (poll_cancellation (fun _ => pendingResponse) (fun i => decide (2 ≤ i)) (fun _ => none) true 2
      (by decide) (by decide) (fun _ _ => rfl)).1⟩

/-- C2: when the loop reaches an iteration i whose response carries a
terminal state (4 = done or 3 = failed), it stops immediately: exactly
the requests 0..i are issued (none after i) and no sleep happens at
iteration i.  On state 4 it parses the JSON-encoded result string and
returns the parsed payload, except that a missing, empty, or unparsable
result string is a fatal, non-retried error; on state 3 it fails
immediately with the error carrying the numeric state. -/
theorem poll_terminal_stops (env : Nat → HttpOutcome) (cancel : Nat → Bool)
    (parse : String → Option JsonVal) (cb : Bool) (i : Nat) (s : ℚ)
    (hpre : ∀ j, j < i → isNonTerminal (env j) = true ∧ cancel j = false)
    (hi : i < MaxRetries) (hci : cancel i = false)
    (hs : getState (env i) = some s) (hterm : s = 4 ∨ s = 3) :
    pollReqs (queryResult env cancel parse cb).1 = List.range (i + 1) ∧
    (pollSleeps (queryResult env cancel parse cb).1).length = i ∧
    (s = 3 → (queryResult env cancel parse cb).2 = .error (.taskFailed s)) ∧
    (s = 4 →
      ((getResultStr (env i) = none ∨ getResultStr (env i) = some "") →
        (queryResult env cancel parse cb).2 = .error .emptyResult) ∧
      (∀ str, getResultStr (env i) = some str → str ≠ "" →
        (parse str = none → (queryResult env cancel parse cb).2 = .error .resultParseFailed) ∧
        (∀ v, parse str = some v → (queryResult env cancel parse cb).2 = .ok v))) := by
  have hskip := pollLoop_skip env cancel parse cb i 0 MaxRetries (by omega)
    (fun j hj => by rw [Nat.zero_add]; exact hpre j hj)
  rw [Nat.zero_add] at hskip
  obtain ⟨m, hm⟩ : ∃ m, MaxRetries - i = m + 1 := ⟨MaxRetries - i - 1, by omega⟩
  rw [hm] at hskip
  cases henv : env i with
  | netErr => rw [henv] at hs; simp [getState, getData] at hs
  | body oj =>
    cases oj with
    | none => rw [henv] at hs; simp [getState, getData] at hs
    | some jv =>
      cases hd : (jv.lookupField "data").bind JsonVal.asObj with
      | none => rw [henv] at hs; simp [getState, getData, hd] at hs
      | some data =>
        have hst : ((JsonVal.obj data).lookupField "state").bind JsonVal.asNum = some s := by
          rw [henv] at hs
          simpa [getState, getData, hd] using hs
        have hres : getResultStr (HttpOutcome.body (some jv))
            = ((JsonVal.obj data).lookupField "result").bind JsonVal.asStr := by
          simp [getResultStr, getData, hd]
        have hstep1 : (pollLoop env cancel parse cb i (m + 1)).1 = [Ev.pollReq i] := by
          rcases hterm with h4 | h3
          · subst h4
            cases hr : ((JsonVal.obj data).lookupField "result").bind JsonVal.asStr with
            | none => simp [pollLoop, hci, henv, hd, hst, hr]
            | some str =>
              rcases eq_or_ne str "" with he | he
              · subst he; simp [pollLoop, hci, henv, hd, hst, hr]
              · cases hp : parse str <;> simp [pollLoop, hci, henv, hd, hst, hr, he, hp]
          · subst h3
            simp [pollLoop, hci, henv, hd, hst]
        have hreq : pollReqs (queryResult env cancel parse cb).1 = List.range (i + 1) := by
          rw [queryResult, hskip]
          dsimp only
          rw [pollReqs_append, pollReqs_runEvents, hstep1]
          simp [pollReqs, List.range_succ, List.range_eq_range']
        have hsleeplen : (pollSleeps (queryResult env cancel parse cb).1).length = i := by
          rw [queryResult, hskip]
          dsimp only
          rw [pollSleeps_append, pollSleeps_runEvents env cb i 0
            (fun j h1 h2 => (hpre j (by omega)).1), hstep1]
          simp [pollSleeps]
        refine ⟨hreq, hsleeplen, ?_, ?_⟩
        · intro h3
          subst h3
          rw [queryResult, hskip]
          dsimp only
          simp [pollLoop, hci, henv, hd, hst]
        · intro h4
          subst h4
          constructor
          · intro hre
            rw [hres] at hre
            rw [queryResult, hskip]
            dsimp only
            rcases hre with hre | hre
            · simp [pollLoop, hci, henv, hd, hst, hre]
            · simp [pollLoop, hci, henv, hd, hst, hre]
          · intro str hstr hne
            rw [hres] at hstr
            constructor
            · intro hp
              rw [queryResult, hskip]
              dsimp only
              simp [pollLoop, hci, henv, hd, hst, hstr, hne, hp]
            · intro v hp
              rw [queryResult, hskip]
              dsimp only
              simp [pollLoop, hci, henv, hd, hst, hstr, hne, hp]

/-- C2 witness: two pending iterations followed by a done response whose
result string parses; the loop returns the parsed payload after exactly
three requests. -/
theorem poll_terminal_stops_witness :
    getState ((fun j : Nat => if j < 2 then pendingResponse else doneResponse) 2) = some 4 ∧
    pollReqs (queryResult (fun j : Nat => if j < 2 then pendingResponse else doneResponse)
      (fun _ => false) (parseOnlyR singleUtterancePayload) true).1 = List.range 3 ∧
    (queryResult (fun j : Nat => if j < 2 then pendingResponse else doneResponse)
      (fun _ => false) (parseOnlyR singleUtterancePayload) true).2 = .ok singleUtterancePayload := by
  have h := poll_terminal_stops (fun j : Nat => if j < 2 then pendingResponse else doneResponse)
    (fun _ => false) (parseOnlyR singleUtterancePayload) true 2 4
    (fun j hj => by interval_cases j <;> exact ⟨rfl, rfl⟩)
    (by decide) rfl rfl (Or.inl rfl)
  refine ⟨rfl, h.1, ?_⟩
  exact ((h.2.2.2 rfl).2 "R" rfl (by decide)).2 singleUtterancePayload (by simp [parseOnlyR])

/-- The poll progress percentage is nondecreasing in the iteration. -/
theorem pollPct_mono (i : Nat) : pollPct i ≤ pollPct (i + 1) := by
  simp only [pollPct, MaxRetries]
  have : i * 39 / 500 ≤ (i + 1) * 39 / 500 := Nat.div_le_div_right (by omega)
  split_ifs <;> omega

/-- The poll progress percentage stays between 60 and 99. -/
theorem pollPct_bounds (i : Nat) : 60 ≤ pollPct i ∧ pollPct i ≤ 99 := by
  simp only [pollPct, MaxRetries]
  split_ifs <;> omega

/-- The first component of a poll iteration that observes a terminal
state: exactly one request, no sleep, no progress callback. -/
theorem pollLoop_fst_terminal (env : Nat → HttpOutcome) (cancel : Nat → Bool)
    (parse : String → Option JsonVal) (cb : Bool) (i n : Nat)
    (hc : cancel i = false) (jv : JsonVal) (data : List (String × JsonVal)) (st : ℚ)
    (henv : env i = .body (some jv))
    (hd : (jv.lookupField "data").bind JsonVal.asObj = some data)
    (hst : ((JsonVal.obj data).lookupField "state").bind JsonVal.asNum = some st)
    (hterm : st = 4 ∨ st = 3) :
    (pollLoop env cancel parse cb i (n + 1)).1 = [Ev.pollReq i] := by
  rcases hterm with h4 | h3
  · subst h4
    cases hr : ((JsonVal.obj data).lookupField "result").bind JsonVal.asStr with
    | none => simp [pollLoop, hc, henv, hd, hst, hr]
    | some str =>
      rcases eq_or_ne str "" with he | he
      · subst he; simp [pollLoop, hc, henv, hd, hst, hr]
      · cases hp : parse str <;> simp [pollLoop, hc, henv, hd, hst, hr, he, hp]
  · subst h3
    simp [pollLoop, hc, henv, hd, hst]

/-- Progress facts of any poll run: the delivered percentages are
chain-nondecreasing, bounded by [60, 99] and at least the current
iteration's percentage; and every progress event happens on a 5-divisible
iteration with a pending response, carries exactly that iteration's
percentage, and only when the callback is non-nil. -/
theorem pollLoop_progress_facts (env : Nat → HttpOutcome) (cancel : Nat → Bool)
    (parse : String → Option JsonVal) (cb : Bool) :
    ∀ fuel i,
      List.Chain' (· ≤ ·) (progressValues (pollLoop env cancel parse cb i fuel).1) ∧
      (∀ p ∈ progressValues (pollLoop env cancel parse cb i fuel).1,
        pollPct i ≤ p ∧ 60 ≤ p ∧ p ≤ 99) ∧
      (∀ a q, Ev.pollProgress a q ∈ (pollLoop env cancel parse cb i fuel).1 →
        a % 5 = 0 ∧ q = pollPct a ∧ isPending (env a) = true ∧ cb = true) := by
  intro fuel
  induction fuel with
  | zero =>
    intro i
    refine ⟨?_, ?_, ?_⟩ <;> simp [pollLoop, progressValues]
  | succ n ih =>
    intro i
    by_cases hc : cancel i = true
    · refine ⟨?_, ?_, ?_⟩ <;> simp [pollLoop, hc, progressValues]
    · rw [Bool.not_eq_true] at hc
      cases hnt : isNonTerminal (env i) with
      | false =>
        have hterm2 : ∃ st, getState (env i) = some st ∧ (st = 4 ∨ st = 3) := by
          cases hgs : getState (env i) with
          | none => simp [isNonTerminal, hgs] at hnt
          | some st =>
            refine ⟨st, rfl, ?_⟩
            rw [isNonTerminal, hgs] at hnt
            have := of_decide_eq_false hnt
            push_neg at this
            by_cases h4 : st = 4
            · exact Or.inl h4
            · exact Or.inr (this h4)
        obtain ⟨st, hgs, hterm⟩ := hterm2
        cases henv : env i with
        | netErr => rw [henv] at hgs; simp [getState, getData] at hgs
        | body oj =>
          cases oj with
          | none => rw [henv] at hgs; simp [getState, getData] at hgs
          | some jv =>
            cases hd : (jv.lookupField "data").bind JsonVal.asObj with
            | none => rw [henv] at hgs; simp [getState, getData, hd] at hgs
            | some data =>
              have hst : ((JsonVal.obj data).lookupField "state").bind JsonVal.asNum = some st := by
                rw [henv] at hgs
                simpa [getState, getData, hd] using hgs
              rw [pollLoop_fst_terminal env cancel parse cb i n hc jv data st henv hd hst hterm]
              refine ⟨?_, ?_, ?_⟩ <;> simp [progressValues]
      | true =>
        rw [pollLoop_step_nonterminal env cancel parse cb i n hc hnt]
        dsimp only
        rw [progressValues_append]
        obtain ⟨ih1, ih2, ih3⟩ := ih (i + 1)
        cases hgs : getState (env i) with
        | none =>
          have hpe : progressValues (iterEvents env cb i) = [] := by
            simp [iterEvents, hgs, progressValues]
          rw [hpe, List.nil_append]
          refine ⟨ih1, fun p hp => ⟨le_trans (pollPct_mono i) (ih2 p hp).1, (ih2 p hp).2⟩, ?_⟩
          intro a q ha
          rcases List.mem_append.mp ha with h1 | h2
          · simp [iterEvents, hgs] at h1
          · exact ih3 a q h2
        | some st =>
          have hpend : isPending (env i) = true := by
            rw [isNonTerminal, hgs] at hnt
            rw [isPending, hgs]
            exact hnt
          cases hcb : cb && i % 5 == 0 with
          | false =>
            have hpe : progressValues (iterEvents env cb i) = [] := by
              simp [iterEvents, hgs, hcb, progressValues]
            rw [hpe, List.nil_append]
            refine ⟨ih1, fun p hp => ⟨le_trans (pollPct_mono i) (ih2 p hp).1, (ih2 p hp).2⟩, ?_⟩
            intro a q ha
            rcases List.mem_append.mp ha with h1 | h2
            · simp [iterEvents, hgs, hcb] at h1
            · exact ih3 a q h2
          | true =>
            have hpe : progressValues (iterEvents env cb i) = [pollPct i] := by
              simp [iterEvents, hgs, hcb, progressValues]
            rw [hpe]
            have hcb2 := hcb
            rw [Bool.and_eq_true] at hcb2
            refine ⟨?_, ?_, ?_⟩
            · rw [List.singleton_append, List.chain'_cons']
              refine ⟨?_, ih1⟩
              intro b hb
              have hbmem : b ∈ progressValues (pollLoop env cancel parse cb (i + 1) n).1 :=
                List.mem_of_mem_head? hb
              exact le_trans (pollPct_mono i) (ih2 b hbmem).1
            · intro p hp
              rw [List.singleton_append, List.mem_cons] at hp
              rcases hp with rfl | hp2
              · exact ⟨le_refl _, (pollPct_bounds i).1, (pollPct_bounds i).2⟩
              · exact ⟨le_trans (pollPct_mono i) (ih2 p hp2).1, (ih2 p hp2).2⟩
            · intro a q ha
              rcases List.mem_append.mp ha with h1 | h2
              · simp [iterEvents, hgs, hcb] at h1
                obtain ⟨ha2, hq⟩ := h1
                subst ha2
                subst hq
                refine ⟨by simpa using hcb2.2, rfl, hpend, hcb2.1⟩
              · exact ih3 a q h2

/-- The poll percentage formula, in the claim's shape: 60 plus the
scaled iteration count, capped at 99. -/
theorem pollPct_eq_min (i : Nat) : pollPct i = min (60 + i * 39 / MaxRetries) 99 := by
  simp only [pollPct]
  rw [Nat.min_def]
  split_ifs <;> omega

/-- Appending the final 100 keeps a nondecreasing progress list
nondecreasing when all prior values are at most 99. -/
theorem chain_le_append_100 : ∀ l : List Nat, List.Chain' (· ≤ ·) l → (∀ p ∈ l, p ≤ 99) →
    List.Chain' (· ≤ ·) (l ++ [100]) := by
  intro l
  induction l with
  | nil => intro _ _; simp
  | cons a t ih =>
    intro hch hb
    cases t with
    | nil =>
      simp only [List.cons_append, List.nil_append]
      rw [List.chain'_cons]
      exact ⟨by have := hb a (by simp); omega, List.chain'_singleton 100⟩
    | cons b t2 =>
      simp only [List.cons_append]
      rw [List.chain'_cons]
      rw [List.chain'_cons] at hch
      refine ⟨hch.1, ?_⟩
      have := ih hch.2 (fun p hp => hb p (List.mem_cons_of_mem a hp))
      simpa [List.cons_append] using this

/-- Prepending the orchestrator's 20, 50, 60 to a nondecreasing list of
values that are at least 60 keeps the whole list nondecreasing. -/
theorem chain_prefix_60 : ∀ l : List Nat, List.Chain' (· ≤ ·) l → (∀ p ∈ l, 60 ≤ p) →
    List.Chain' (· ≤ ·) (20 :: 50 :: 60 :: l) := by
  intro l hch hb
  rw [List.chain'_cons, List.chain'_cons]
  refine ⟨by omega, by omega, ?_⟩
  cases l with
  | nil => simp
  | cons a t =>
    rw [List.chain'_cons]
    exact ⟨hb a (by simp), hch⟩

/-- Progress facts of the full (cache-miss) GetResult event trace. -/
theorem progress_chain_of_run (env : OrchEnv) (cb : Bool) (evs : List Ev)
    (hevs : evs = (if cb then [Ev.progress 20] else []) ++ [Ev.netUpload] ++
      (if cb then [Ev.progress 50] else []) ++ [Ev.netCreateTask] ++
      (if cb then [Ev.progress 60] else []) ++
      (queryResult env.pollEnv env.cancel env.parse cb).1 ++
      (if cb then [Ev.progress 100] else [])) :
    List.Chain' (· ≤ ·) (progressValues evs) ∧
    (∀ a q, Ev.pollProgress a q ∈ evs →
      a % 5 = 0 ∧ q = min (60 + a * 39 / MaxRetries) 99 ∧ isPending (env.pollEnv a) = true) := by
  subst hevs
  obtain ⟨h1, h2, h3⟩ :=
    pollLoop_progress_facts env.pollEnv env.cancel env.parse cb MaxRetries 0
  constructor
  · cases cb with
    | false => simpa [progressValues_append, progressValues] using h1
    | true =>
      have hch : List.Chain' (· ≤ ·)
          ((progressValues (queryResult env.pollEnv env.cancel env.parse true).1) ++ [100]) :=
        chain_le_append_100 _ h1 (fun p hp => (h2 p hp).2.2)
      have hpre : ∀ p ∈ (progressValues (queryResult env.pollEnv env.cancel env.parse true).1) ++ [100],
          60 ≤ p := by
        intro p hp
        rcases List.mem_append.mp hp with hp1 | hp2
        · exact (h2 p hp1).2.1
        · simp at hp2; omega
      have := chain_prefix_60 _ hch hpre
      simpa [progressValues_append, progressValues] using this
  · intro a q ha
    simp only [List.mem_append] at ha
    have hpoll : Ev.pollProgress a q ∈ (queryResult env.pollEnv env.cancel env.parse cb).1 := by
      rcases ha with ((((((h | h) | h) | h) | h) | h) | h)
      · cases cb <;> simp at h
      · simp at h
      · cases cb <;> simp at h
      · simp at h
      · cases cb <;> simp at h
      · exact h
      · cases cb <;> simp at h
    have := h3 a q hpoll
    exact ⟨this.1, by rw [this.2.1, pollPct_eq_min], this.2.2.1⟩

/-- C9: on every GetResult run that returns a result (happy path), the
sequence of percentages delivered to the progress callback is
monotonically nondecreasing, and the poll-phase callback fires only on
iterations divisible by 5 whose response is a pending state, carrying
exactly 60 + floor(i*39/MaxRetries) capped at 99. -/
theorem progress_monotone (env : OrchEnv) (cache : Option (List DataSegment))
    (useCache cb : Bool) (segs : List DataSegment)
    (hok : (GetResult env cache useCache cb).1 = .ok segs) :
    List.Chain' (· ≤ ·) (progressValues (GetResult env cache useCache cb).2.2) ∧
    (∀ a q, Ev.pollProgress a q ∈ (GetResult env cache useCache cb).2.2 →
      a % 5 = 0 ∧ q = min (60 + a * 39 / MaxRetries) 99 ∧
      isPending (env.pollEnv a) = true) := by
  cases useCache with
  | true =>
    cases cache with
    | some cs =>
      constructor
      · cases cb <;> simp [GetResult, progressValues]
      · intro a q ha
        cases cb <;> simp [GetResult] at ha
    | none =>
      cases hup : env.uploadOk with
      | false => simp [GetResult, hup] at hok
      | true =>
        cases hct : env.createTaskOk with
        | false => simp [GetResult, hup, hct] at hok
        | true =>
          cases hpoll : (queryResult env.pollEnv env.cancel env.parse cb).2 with
          | error e => simp [GetResult, hup, hct, hpoll] at hok
          | ok payload =>
            have hE : (GetResult env none true cb).2.2 =
                (if cb then [Ev.progress 20] else []) ++ [Ev.netUpload] ++
                (if cb then [Ev.progress 50] else []) ++ [Ev.netCreateTask] ++
                (if cb then [Ev.progress 60] else []) ++
                (queryResult env.pollEnv env.cancel env.parse cb).1 ++
                (if cb then [Ev.progress 100] else []) := by
              simp [GetResult, hup, hct, hpoll]
            rw [hE]
            exact progress_chain_of_run env cb _ rfl
  | false =>
    cases hup : env.uploadOk with
    | false => simp [GetResult, hup] at hok
    | true =>
      cases hct : env.createTaskOk with
      | false => simp [GetResult, hup, hct] at hok
      | true =>
        cases hpoll : (queryResult env.pollEnv env.cancel env.parse cb).2 with
        | error e => simp [GetResult, hup, hct, hpoll] at hok
        | ok payload =>
          have hE : (GetResult env cache false cb).2.2 =
              (if cb then [Ev.progress 20] else []) ++ [Ev.netUpload] ++
              (if cb then [Ev.progress 50] else []) ++ [Ev.netCreateTask] ++
              (if cb then [Ev.progress 60] else []) ++
              (queryResult env.pollEnv env.cancel env.parse cb).1 ++
              (if cb then [Ev.progress 100] else []) := by
            cases cache <;> simp [GetResult, hup, hct, hpoll]
          rw [hE]
          exact progress_chain_of_run env cb _ rfl

/-- C9 witness: a run that completes on the first poll with an empty
payload; the callback sequence is 20, 50, 60, 100. -/
theorem progress_monotone_witness :
    (GetResult envDoneEmptyPayload none true true).1 = .ok [] ∧
    List.Chain' (· ≤ ·) (progressValues (GetResult envDoneEmptyPayload none true true).2.2) :=
  ⟨rfl, (progress_monotone envDoneEmptyPayload none true true [] rfl).1⟩

/-- C8 (amended): a GetResult call that finds a cache entry returns it
immediately with 100% progress and zero network operations; and after a
successful call that produced at least one segment the entry is written,
so any subsequent call with that cache state returns the same output
with zero network operations.  (The at-least-one-segment proviso is
forced by the source: the cache write at src/asr.go line 124 is guarded
by len(segments) > 0.) -/
theorem cache_idempotence :
    (∀ (env : OrchEnv) (segs : List DataSegment) (cb : Bool),
      GetResult env (some segs) true cb =
        (.ok segs, some segs, if cb then [Ev.progress 100] else []) ∧
      networkOps (GetResult env (some segs) true cb).2.2 = 0) ∧
    (∀ (env : OrchEnv) (cb : Bool) (segs : List DataSegment),
      (GetResult env none true cb).1 = .ok segs → segs ≠ [] →
      (GetResult env none true cb).2.1 = some segs ∧
      (∀ (env2 : OrchEnv) (cb2 : Bool),
        (GetResult env2 (some segs) true cb2).1 = .ok segs ∧
        networkOps (GetResult env2 (some segs) true cb2).2.2 = 0)) := by
  have hhit : ∀ (env : OrchEnv) (segs : List DataSegment) (cb : Bool),
      GetResult env (some segs) true cb =
        (.ok segs, some segs, if cb then [Ev.progress 100] else []) :=
    fun _ _ _ => rfl
  have hnet : ∀ (env : OrchEnv) (segs : List DataSegment) (cb : Bool),
      networkOps (GetResult env (some segs) true cb).2.2 = 0 := by
    intro env segs cb
    rw [hhit]
    cases cb <;> rfl
  refine ⟨fun env segs cb => ⟨hhit env segs cb, hnet env segs cb⟩, ?_⟩
  intro env cb segs hok hne
  constructor
  · cases hup : env.uploadOk with
    | false => simp [GetResult, hup] at hok
    | true =>
      cases hct : env.createTaskOk with
      | false => simp [GetResult, hup, hct] at hok
      | true =>
        cases hpoll : (queryResult env.pollEnv env.cancel env.parse cb).2 with
        | error e => simp [GetResult, hup, hct, hpoll] at hok
        | ok payload =>
          have hsegs : makeSegments payload = segs := by
            simpa [GetResult, hup, hct, hpoll] using hok
          have hlen : segs.length > 0 := List.length_pos.mpr hne
          simp [GetResult, hup, hct, hpoll, hsegs, hlen]
  · intro env2 cb2
    refine ⟨by rw [hhit], hnet env2 segs cb2⟩

/-- C8 counterexample: a run that succeeds with zero segments (the
decoded payload has no utterances array).  The call is successful, yet
no cache entry is written, and the second sequential call repeats the
full set of network calls instead of at most one set across both
calls. -/
theorem cache_write_counterexample :
    (GetResult envDoneEmptyPayload none true false).1 = .ok [] ∧
    (GetResult envDoneEmptyPayload none true false).2.1 = none ∧
    networkOps (GetResult envDoneEmptyPayload none true false).2.2 ≠ 0 ∧
    networkOps (GetResult envDoneEmptyPayload
      (GetResult envDoneEmptyPayload none true false).2.1 true false).2.2 ≠ 0 :=
  ⟨rfl, rfl, by decide, by decide⟩

/-- C8 witness: a run that produces one segment writes the cache entry,
and the follow-up call returns the same output with no network
operations. -/
theorem cache_idempotence_witness :
    (GetResult envDoneOneUtterance none true false).1 = .ok [⟨"hi", 21/200, 121/200⟩] ∧
    (GetResult envDoneOneUtterance none true false).2.1 = some [⟨"hi", 21/200, 121/200⟩] ∧
    (GetResult envDoneOneUtterance (some [⟨"hi", 21/200, 121/200⟩]) true false).1
      = .ok [⟨"hi", 21/200, 121/200⟩] ∧
    networkOps (GetResult envDoneOneUtterance
      (some [⟨"hi", 21/200, 121/200⟩]) true false).2.2 = 0 := by
  have hseg : makeSegments singleUtterancePayload = [⟨"hi", 21/200, 121/200⟩] := by
    simp [singleUtterancePayload, makeSegments, JsonVal.lookupField, JsonVal.asArr,
      JsonVal.asObj, JsonVal.asNum, JsonVal.asStr, List.lookup, TimeOffset]
    norm_num
  have hpoll : (queryResult (fun _ => doneResponse) (fun _ => false)
      (parseOnlyR singleUtterancePayload) false).2 = .ok singleUtterancePayload := rfl
  have hok : (GetResult envDoneOneUtterance none true false).1 = .ok [⟨"hi", 21/200, 121/200⟩] := by
    simp [GetResult, envDoneOneUtterance, hpoll, hseg]
  have hne : ([⟨"hi", 21/200, 121/200⟩] : List DataSegment) ≠ [] := by simp
  refine ⟨hok, ?_, ?_, ?_⟩
  · exact (cache_idempotence.2 envDoneOneUtterance false [⟨"hi", 21/200, 121/200⟩] hok hne).1
  · exact ((cache_idempotence.2 envDoneOneUtterance false [⟨"hi", 21/200, 121/200⟩] hok hne).2
      envDoneOneUtterance false).1
  · exact ((cache_idempotence.2 envDoneOneUtterance false [⟨"hi", 21/200, 121/200⟩] hok hne).2
      envDoneOneUtterance false).2
